import Mathlib

/-!
Shallow embedding of the `learning-hash-table` repository (src/main.rs): a
fixed-capacity, closed-addressing (separate chaining) hash table mapping
string keys to values of a parametrized type `T`.

Modelling conventions:
- Rust `usize` arithmetic is modelled with `Nat`.  The only place where this
  matters is `%`: Rust `x % 0` panics, while Lean has `x % 0 = x`, so the one
  code path that can reach a modulo with divisor `0` (namely `insert` on a
  table with an empty bucket array) is modelled as a fallible function
  returning `Option`, with `none` for the panic.
- Rust `Vec` is modelled as `List`, in-place mutation as functional update.
- Rust `Option<Vec<HashItem<T>>>` buckets are `Option (List (HashItem T))`.
-/

set_option autoImplicit false

namespace LHT

/-- Rust `const DEFAULT_HASH2ST_SIZE: usize = 256;` -/
def DEFAULT_HASH2ST_SIZE : Nat := 256

/-- Rust `fn default_hash(s: &str, len: usize) -> usize`:
sum of the code points of the characters of `s`, modulo `len`.
(In Rust, `% 0` panics; `get_item` and `get_item_mut` guard `len = 0`
before calling this, and the one unguarded caller, `insert`, models the
panic path explicitly.) -/
def default_hash (s : String) (len : Nat) : Nat :=
  ((s.data.map fun c => c.toNat).sum) % len

/-- Rust `struct HashItem<T> { k: Cow<'static, str>, v: T }` -/
structure HashItem (T : Type) where
  k : String
  v : T
  deriving DecidableEq

/-- Rust `type HashNode<T> = Option<Vec<HashItem<T>>>;` (a type alias). -/
abbrev HashNode (T : Type) : Type := Option (List (HashItem T))

/-- Rust `struct HashS2T<T> { items: Vec<HashNode<T>>, stat_collisions: usize }` -/
structure HashS2T (T : Type) where
  items : List (HashNode T)
  stat_collisions : Nat
  deriving DecidableEq

namespace HashS2T

variable {T : Type}

/-- Rust `impl<T> Default for HashS2T<T>`: 256 unallocated buckets pushed in a
loop, and a zero collision counter. -/
def construct_default (T : Type) : HashS2T T :=
  { items := List.replicate DEFAULT_HASH2ST_SIZE (none : HashNode T)
    stat_collisions := 0 }

/-- Modelled from the spec: `construct(capacity)` is listed as an external
interface ("allocates `capacity` empty buckets and a zero collision counter")
but src/main.rs has no such constructor (only `Default`, with capacity 256). -/
def construct (T : Type) (capacity : Nat) : HashS2T T :=
  { items := List.replicate capacity (none : HashNode T)
    stat_collisions := 0 }

/-- The chain stored at bucket `i`: empty both for an unallocated bucket and
out of range. -/
def bucket (h : HashS2T T) (i : Nat) : List (HashItem T) :=
  (h.items.getD i (none : HashNode T)).getD []

/-- Rust `fn get_item(&self, k: &str) -> Option<&HashItem<T>>`:
guard the empty bucket array, hash, then linearly scan that bucket's chain
for the first entry with an equal key. -/
def get_item (h : HashS2T T) (k : String) : Option (HashItem T) :=
  if h.items.length = 0 then none
  else
    let i := default_hash k h.items.length
    let node : HashNode T := h.items.getD i none
    node.bind fun items => items.find? fun item => item.k == k

/-- Rust `fn get(&self, k: &str) -> Option<&T>` -/
def get (h : HashS2T T) (k : String) : Option T :=
  (h.get_item k).map fun item => item.v

/-- Rust `fn get_item_mut(&mut self, k: &str) -> Option<&mut HashItem<T>>`:
the same lookup as `get_item`, written out separately because it is a
separate function in the source. -/
def get_item_mut (h : HashS2T T) (k : String) : Option (HashItem T) :=
  if h.items.length = 0 then none
  else
    let i := default_hash k h.items.length
    let node : HashNode T := h.items.getD i none
    node.bind fun items => items.find? fun item => item.k == k

/-- Rust `fn get_mut(&mut self, k: &str) -> Option<&mut T>` -/
def get_mut (h : HashS2T T) (k : String) : Option T :=
  (h.get_item_mut k).map fun item => item.v

/-- The in-place overwrite that `insert` performs through `get_item_mut`'s
mutable reference: replace the value of the first chain entry whose key is
`k`, leaving everything else in the chain untouched. -/
def updateFirst (k : String) (v : T) : List (HashItem T) → List (HashItem T)
  | [] => []
  | item :: rest =>
      if item.k == k then { item with v := v } :: rest
      else item :: updateFirst k v rest

/-- Rust `fn insert(&mut self, k: &str, v: T)`.
Returns `none` exactly on the Rust panic path: the key is absent and
`default_hash` is called with `self.items.len() = 0` (remainder by zero). -/
def insert (h : HashS2T T) (k : String) (v : T) : Option (HashS2T T) :=
  if (h.get_item_mut k).isSome then
    -- `if let Some(item) = self.get_item_mut(k) { item.v = v; return; }`
    let i := default_hash k h.items.length
    some { h with items := h.items.set i ((h.items.getD i none).map (updateFirst k v)) }
  else if h.items.length = 0 then
    none
  else
    let i := default_hash k h.items.length
    let item : HashItem T := ⟨k, v⟩
    match h.items.getD i (none : HashNode T) with
    | some items =>
        some { items := h.items.set i (some (items ++ [item]))
               stat_collisions := h.stat_collisions + 1 }
    | none =>
        some { items := h.items.set i (some [item])
               stat_collisions := h.stat_collisions }

/-- Fold a list of `(key, value)` pairs into the table by repeated `insert`. -/
def insertAll (h : HashS2T T) : List (String × T) → Option (HashS2T T)
  | [] => some h
  | (k, v) :: rest => (h.insert k v).bind fun h2 => insertAll h2 rest

/-- Rust `fn into_iter(self) -> impl Iterator<Item = HashItem<T>>`, i.e.
`self.items.into_iter().filter_map(|node| node).flatten()`, as the list of
items the iterator yields, in order. -/
def intoIterList (h : HashS2T T) : List (HashItem T) :=
  (h.items.filterMap fun node => (node : Option (List (HashItem T)))).flatten

/-- Rust `fn iter(&self) -> impl Iterator<Item = &HashItem<T>>`, i.e.
`self.items.iter().filter_map(|node| node.as_ref()).flatten()`, as the list
of items the iterator yields, in order. -/
def iterList (h : HashS2T T) : List (HashItem T) :=
  (h.items.filterMap fun node => (id node : Option (List (HashItem T)))).flatten

/-- Total number of entries stored in the table. -/
def entryCount (h : HashS2T T) : Nat :=
  (h.items.map fun node => ((node : Option (List (HashItem T))).getD []).length).sum

/-- Number of entries, anywhere in the table, whose key is `k`. -/
def keyCount (h : HashS2T T) (k : String) : Nat :=
  (h.items.map fun node =>
    ((node : Option (List (HashItem T))).getD []).countP fun item => item.k == k).sum

end HashS2T

/-- The placement and uniqueness invariant: every entry sits in the bucket
its key hashes to, and no bucket chain holds two entries with the same key. -/
def WF {T : Type} (h : HashS2T T) : Prop :=
  ∀ i, i < h.items.length →
    (∀ item ∈ h.bucket i, default_hash item.k h.items.length = i) ∧
    ((h.bucket i).map HashItem.k).Nodup

instance {T : Type} (h : HashS2T T) : Decidable (WF h) := by
  unfold WF; infer_instance

namespace HashS2T

variable {T : Type}

theorem get_item_mut_eq_get_item (h : HashS2T T) (k : String) :
    h.get_item_mut k = h.get_item k := rfl

theorem length_updateFirst (k : String) (v : T) (l : List (HashItem T)) :
    (updateFirst k v l).length = l.length := by
  induction l with
  | nil => rfl
  | cons item rest ih =>
      by_cases hk : (item.k == k) = true
      · simp [updateFirst, hk]
      · simp [updateFirst, hk, ih]

theorem map_k_updateFirst (k : String) (v : T) (l : List (HashItem T)) :
    (updateFirst k v l).map HashItem.k = l.map HashItem.k := by
  induction l with
  | nil => rfl
  | cons item rest ih =>
      by_cases hk : (item.k == k) = true
      · simp [updateFirst, hk]
      · simp [updateFirst, hk, ih]

theorem find?_updateFirst_self (k : String) (v : T) (l : List (HashItem T)) :
    ((updateFirst k v l).find? fun it => it.k == k)
      = (l.find? fun it => it.k == k).map fun it => { it with v := v } := by
  induction l with
  | nil => rfl
  | cons item rest ih =>
      cases hk : item.k == k with
      | true => simp [updateFirst, hk, List.find?_cons]
      | false => simp [updateFirst, hk, List.find?_cons, ih]

theorem find?_updateFirst_ne (k' k : String) (v : T) (hne : k' ≠ k)
    (l : List (HashItem T)) :
    ((updateFirst k v l).find? fun it => it.k == k')
      = l.find? fun it => it.k == k' := by
  induction l with
  | nil => rfl
  | cons item rest ih =>
      cases hk : item.k == k with
      | true =>
          have hkk : item.k = k := by simpa using hk
          have hk' : (item.k == k') = false := by
            rw [beq_eq_false_iff_ne, hkk]
            exact fun h => hne h.symm
          simp [updateFirst, hk, List.find?_cons, hk']
      | false =>
          cases hk' : item.k == k' with
          | true => simp [updateFirst, hk, List.find?_cons, hk']
          | false => simp [updateFirst, hk, List.find?_cons, hk', ih]

theorem countP_updateFirst (k' k : String) (v : T) (l : List (HashItem T)) :
    ((updateFirst k v l).countP fun it => it.k == k')
      = l.countP fun it => it.k == k' := by
  induction l with
  | nil => rfl
  | cons item rest ih =>
      by_cases hk : (item.k == k) = true
      · simp [updateFirst, hk, List.countP_cons]
      · simp [updateFirst, hk, List.countP_cons, ih]

theorem mem_updateFirst (k : String) (v : T) (l : List (HashItem T)) :
    ∀ item ∈ updateFirst k v l, ∃ item0 ∈ l, item.k = item0.k := by
  induction l with
  | nil => intro item hmem; cases hmem
  | cons hd rest ih =>
      intro item hmem
      cases hk : hd.k == k with
      | true =>
          rw [updateFirst, if_pos hk] at hmem
          rcases List.mem_cons.mp hmem with heq | hmem
          · exact ⟨hd, List.mem_cons_self hd rest, by rw [heq]⟩
          · exact ⟨item, List.mem_cons_of_mem hd hmem, rfl⟩
      | false =>
          rw [updateFirst, if_neg (by simp [hk])] at hmem
          rcases List.mem_cons.mp hmem with heq | hmem
          · exact ⟨hd, List.mem_cons_self hd rest, by rw [heq]⟩
          · rcases ih item hmem with ⟨item0, h0, hkeq⟩
            exact ⟨item0, List.mem_cons_of_mem hd h0, hkeq⟩

theorem get_item_eq_find?_bucket (h : HashS2T T) (k : String)
    (hlen : h.items.length ≠ 0) :
    h.get_item k
      = (h.bucket (default_hash k h.items.length)).find? fun it => it.k == k := by
  have hstep : h.get_item k
      = (h.items.getD (default_hash k h.items.length) none).bind
          fun items => items.find? fun item => item.k == k := by
    simp only [get_item, if_neg hlen]
  rw [hstep, bucket]
  cases h.items.getD (default_hash k h.items.length) none with
  | none => rfl
  | some chain => rfl

theorem default_hash_lt (s : String) (len : Nat) (hpos : 0 < len) :
    default_hash s len < len :=
  Nat.mod_lt _ hpos

theorem get_item_len_pos (h : HashS2T T) (k : String)
    (hfound : (h.get_item k).isSome = true) : 0 < h.items.length := by
  by_contra hlen
  have h0 : h.items.length = 0 := Nat.eq_zero_of_not_pos hlen
  rw [get_item, if_pos h0] at hfound
  simp at hfound

theorem getD_set_self {α : Type} (l : List α) (i : Nat) (a d : α)
    (hi : i < l.length) : (l.set i a).getD i d = a := by
  simp [List.getD_eq_getElem?_getD, List.getElem?_set_self hi]

theorem getD_set_ne {α : Type} (l : List α) (i j : Nat) (a d : α)
    (hne : i ≠ j) : (l.set i a).getD j d = l.getD j d := by
  simp [List.getD_eq_getElem?_getD, List.getElem?_set_ne hne]

theorem insert_found (h : HashS2T T) (k : String) (v : T)
    (hfound : (h.get_item k).isSome = true) :
    h.insert k v = some { h with
      items := h.items.set (default_hash k h.items.length)
        ((h.items.getD (default_hash k h.items.length) none).map (updateFirst k v)) } := by
  simp [insert, get_item_mut_eq_get_item, hfound]

theorem insert_absent_chain (h : HashS2T T) (k : String) (v : T)
    (chain : List (HashItem T)) (hlen : ¬ h.items.length = 0)
    (habs : h.get_item k = none)
    (hnode : h.items.getD (default_hash k h.items.length) none = some chain) :
    h.insert k v = some
      { items := h.items.set (default_hash k h.items.length) (some (chain ++ [⟨k, v⟩]))
        stat_collisions := h.stat_collisions + 1 } := by
  have hnode2 : (h.items[default_hash k h.items.length]?).getD none = some chain := by
    rw [← List.getD_eq_getElem?_getD]; exact hnode
  simp [insert, get_item_mut_eq_get_item, habs, hlen, hnode2]

theorem insert_absent_empty (h : HashS2T T) (k : String) (v : T)
    (hlen : ¬ h.items.length = 0) (habs : h.get_item k = none)
    (hnode : h.items.getD (default_hash k h.items.length) none = none) :
    h.insert k v = some
      { items := h.items.set (default_hash k h.items.length) (some [⟨k, v⟩])
        stat_collisions := h.stat_collisions } := by
  have hnode2 : (h.items[default_hash k h.items.length]?).getD none = none := by
    rw [← List.getD_eq_getElem?_getD]; exact hnode
  simp [insert, get_item_mut_eq_get_item, habs, hlen, hnode2]

theorem insert_len_zero (h : HashS2T T) (k : String) (v : T)
    (hlen : h.items.length = 0) : h.insert k v = none := by
  have habs : h.get_item k = none := by rw [get_item, if_pos hlen]
  simp [insert, get_item_mut_eq_get_item, habs, hlen]

/-- Case analysis of a successful `insert`: the capacity is positive and
unchanged, every bucket other than the key's is untouched, and the key's
bucket is either overwritten in place (key found: collision counter kept) or
extended with the new entry at the end (key absent: collision counter bumped
exactly when the bucket already held a chain). -/
theorem insert_some_spec (h h' : HashS2T T) (k : String) (v : T)
    (hins : h.insert k v = some h') :
    h'.items.length = h.items.length ∧
    0 < h.items.length ∧
    (∀ j, j ≠ default_hash k h.items.length → h'.items[j]? = h.items[j]?) ∧
    ((h.get_item k).isSome = true →
        h'.bucket (default_hash k h.items.length)
          = updateFirst k v (h.bucket (default_hash k h.items.length)) ∧
        h'.stat_collisions = h.stat_collisions) ∧
    (h.get_item k = none →
        h'.bucket (default_hash k h.items.length)
          = h.bucket (default_hash k h.items.length) ++ [⟨k, v⟩] ∧
        h'.stat_collisions =
          (if (h.items.getD (default_hash k h.items.length) none).isSome = true
           then h.stat_collisions + 1 else h.stat_collisions)) := by
  cases hfound : (h.get_item k).isSome with
  | true =>
      have hlenpos : 0 < h.items.length := get_item_len_pos h k hfound
      have hilt : default_hash k h.items.length < h.items.length :=
        default_hash_lt _ _ hlenpos
      rw [insert_found h k v hfound, Option.some_inj] at hins
      subst hins
      refine ⟨by simp, hlenpos, ?_, ?_, ?_⟩
      · intro j hj
        exact List.getElem?_set_ne fun he => hj he.symm
      · intro _
        refine ⟨?_, rfl⟩
        rw [bucket, bucket]
        show ((h.items.set _ _).getD _ none).getD [] = _
        rw [getD_set_self _ _ _ _ hilt]
        cases h.items.getD (default_hash k h.items.length) none with
        | none => rfl
        | some chain => rfl
      · intro habs
        rw [habs] at hfound
        simp at hfound
  | false =>
      have habs : h.get_item k = none := by
        cases hg : h.get_item k with
        | none => rfl
        | some it => rw [hg] at hfound; simp at hfound
      by_cases hlen0 : h.items.length = 0
      · rw [insert_len_zero h k v hlen0] at hins
        cases hins
      · have hlenpos : 0 < h.items.length := Nat.pos_of_ne_zero hlen0
        have hilt : default_hash k h.items.length < h.items.length :=
          default_hash_lt _ _ hlenpos
        cases hnode : h.items.getD (default_hash k h.items.length) none with
        | some chain =>
            rw [insert_absent_chain h k v chain hlen0 habs hnode,
              Option.some_inj] at hins
            subst hins
            refine ⟨by simp, hlenpos, ?_, ?_, ?_⟩
            · intro j hj
              exact List.getElem?_set_ne fun he => hj he.symm
            · intro hf; simp at hf
            · intro _
              constructor
              · rw [bucket, bucket]
                show ((h.items.set _ _).getD _ none).getD [] = _
                rw [getD_set_self _ _ _ _ hilt, hnode]
                rfl
              · simp
        | none =>
            rw [insert_absent_empty h k v hlen0 habs hnode,
              Option.some_inj] at hins
            subst hins
            refine ⟨by simp, hlenpos, ?_, ?_, ?_⟩
            · intro j hj
              exact List.getElem?_set_ne fun he => hj he.symm
            · intro hf; simp at hf
            · intro _
              constructor
              · rw [bucket, bucket]
                show ((h.items.set _ _).getD _ none).getD [] = _
                rw [getD_set_self _ _ _ _ hilt, hnode]
                rfl
              · simp

theorem sum_map_set {α : Type} (f : α → Nat) (l : List α) (i : Nat) (a d : α)
    (hi : i < l.length) :
    ((l.set i a).map f).sum + f (l.getD i d) = (l.map f).sum + f a := by
  induction l generalizing i with
  | nil => cases hi
  | cons b t ih =>
      cases i with
      | zero => simp; omega
      | succ n =>
          have hn : n < t.length := by simpa using hi
          simp only [List.set, List.map_cons, List.sum_cons, List.getD_cons_succ]
          have := ih n hn
          omega

theorem eq_set_of_frame {α : Type} (l l2 : List α) (i : Nat) (d : α)
    (hlen : l2.length = l.length)
    (hframe : ∀ j, j ≠ i → l2[j]? = l[j]?) (hi : i < l.length) :
    l2 = l.set i (l2.getD i d) := by
  apply List.ext_getElem?
  intro j
  by_cases hj : j = i
  · subst hj
    rw [List.getElem?_set_self hi]
    have hj2 : j < l2.length := by omega
    rw [List.getD_eq_getElem?_getD, List.getElem?_eq_getElem hj2]
    rfl
  · rw [List.getElem?_set_ne fun he => hj he.symm, hframe j hj]

theorem sum_eq_getD_of_zeros (l : List Nat) (i : Nat)
    (hz : ∀ j, j < l.length → j ≠ i → l.getD j 0 = 0) :
    l.sum = l.getD i 0 := by
  induction l generalizing i with
  | nil => simp
  | cons a t ih =>
      cases i with
      | zero =>
          have ht : t.sum = 0 := by
            apply List.sum_eq_zero
            intro x hx
            obtain ⟨j, hj, hget⟩ := List.mem_iff_getElem.mp hx
            have := hz (j + 1) (by simpa using hj) (by simp)
            rw [List.getD_cons_succ, List.getD_eq_getElem?_getD,
              List.getElem?_eq_getElem hj, hget] at this
            exact this
          simp [ht]
      | succ n =>
          have ha : a = 0 := by
            have := hz 0 (by simp) (by simp)
            simpa using this
          have ht := ih n fun j hj hne => by
            have := hz (j + 1) (by simpa using hj) (by simpa using hne)
            rw [List.getD_cons_succ] at this
            exact this
          simp [ha, ht]

theorem getD_replicate_self {α : Type} (n i : Nat) (a : α) :
    (List.replicate n a).getD i a = a := by
  rw [List.getD_eq_getElem?_getD, List.getElem?_replicate]
  split
  · rfl
  · rfl

theorem construct_items_length (c : Nat) : (construct T c).items.length = c := by
  simp [construct]

theorem construct_default_eq : construct_default T = construct T DEFAULT_HASH2ST_SIZE :=
  rfl

theorem get_item_construct (c : Nat) (k : String) :
    (construct T c).get_item k = none := by
  by_cases hc : (construct T c).items.length = 0
  · rw [get_item, if_pos hc]
  · rw [get_item_eq_find?_bucket _ _ hc, bucket]
    have hnode : (construct T c).items.getD
        (default_hash k (construct T c).items.length) none = none := by
      show (List.replicate c (none : HashNode T)).getD _ none = none
      exact getD_replicate_self _ _ _
    rw [hnode]
    rfl

theorem get_construct (c : Nat) (k : String) : (construct T c).get k = none := by
  rw [get, get_item_construct]
  rfl

theorem insert_isSome_of_pos (h : HashS2T T) (k : String) (v : T)
    (hpos : 0 < h.items.length) : (h.insert k v).isSome = true := by
  have hlen0 : ¬ h.items.length = 0 := Nat.pos_iff_ne_zero.mp hpos
  cases hfound : (h.get_item k).isSome with
  | true => rw [insert_found h k v hfound]; rfl
  | false =>
      have habs : h.get_item k = none := by
        cases hg : h.get_item k with
        | none => rfl
        | some it => rw [hg] at hfound; simp at hfound
      cases hnode : h.items.getD (default_hash k h.items.length) none with
      | some chain => rw [insert_absent_chain h k v chain hlen0 habs hnode]; rfl
      | none => rw [insert_absent_empty h k v hlen0 habs hnode]; rfl

theorem get_insert_self (h h' : HashS2T T) (k : String) (v : T)
    (hins : h.insert k v = some h') : h'.get k = some v := by
  obtain ⟨hlen, hpos, hframe, hfoundc, habsc⟩ := insert_some_spec h h' k v hins
  have hne0 : h.items.length ≠ 0 := Nat.pos_iff_ne_zero.mp hpos
  have hne0' : h'.items.length ≠ 0 := by rw [hlen]; exact hne0
  have hkey : default_hash k h'.items.length = default_hash k h.items.length := by
    rw [hlen]
  rw [get, get_item_eq_find?_bucket h' k hne0', hkey]
  cases hg : h.get_item k with
  | some it =>
      obtain ⟨hb, _⟩ := hfoundc (by rw [hg]; rfl)
      have hfind : (h.bucket (default_hash k h.items.length)).find?
          (fun it => it.k == k) = some it := by
        rw [← get_item_eq_find?_bucket h k hne0]
        exact hg
      rw [hb, find?_updateFirst_self, hfind]
      rfl
  | none =>
      obtain ⟨hb, _⟩ := habsc hg
      have hfind : (h.bucket (default_hash k h.items.length)).find?
          (fun it => it.k == k) = none := by
        rw [← get_item_eq_find?_bucket h k hne0]
        exact hg
      rw [hb, List.find?_append, hfind]
      simp

theorem get_item_insert_ne (h h' : HashS2T T) (k : String) (v : T) (k2 : String)
    (hne : k2 ≠ k) (hins : h.insert k v = some h') :
    h'.get_item k2 = h.get_item k2 := by
  obtain ⟨hlen, hpos, hframe, hfoundc, habsc⟩ := insert_some_spec h h' k v hins
  have hne0 : h.items.length ≠ 0 := Nat.pos_iff_ne_zero.mp hpos
  have hne0' : h'.items.length ≠ 0 := by rw [hlen]; exact hne0
  have hkey : default_hash k2 h'.items.length = default_hash k2 h.items.length := by
    rw [hlen]
  rw [get_item_eq_find?_bucket h' k2 hne0', get_item_eq_find?_bucket h k2 hne0, hkey]
  by_cases hbq : default_hash k2 h.items.length = default_hash k h.items.length
  · rw [hbq]
    cases hg : h.get_item k with
    | some it =>
        obtain ⟨hb, _⟩ := hfoundc (by rw [hg]; rfl)
        rw [hb, find?_updateFirst_ne k2 k v hne]
    | none =>
        obtain ⟨hb, _⟩ := habsc hg
        have hsingle : ([(⟨k, v⟩ : HashItem T)].find? fun it => it.k == k2) = none := by
          have : ((⟨k, v⟩ : HashItem T).k == k2) = false :=
            beq_eq_false_iff_ne.mpr fun he => hne he.symm
          simp [this]
        rw [hb, List.find?_append, hsingle]
        simp
  · have hbucket : h'.bucket (default_hash k2 h.items.length)
        = h.bucket (default_hash k2 h.items.length) := by
      rw [bucket, bucket, List.getD_eq_getElem?_getD, List.getD_eq_getElem?_getD,
        hframe _ hbq]
    rw [hbucket]

theorem get_insert_ne (h h' : HashS2T T) (k : String) (v : T) (k2 : String)
    (hne : k2 ≠ k) (hins : h.insert k v = some h') :
    h'.get k2 = h.get k2 := by
  rw [get, get, get_item_insert_ne h h' k v k2 hne hins]

theorem entryCount_insert (h h' : HashS2T T) (k : String) (v : T)
    (hins : h.insert k v = some h') :
    h'.entryCount =
      if (h.get_item k).isSome = true then h.entryCount else h.entryCount + 1 := by
  obtain ⟨hlen, hpos, hframe, hfoundc, habsc⟩ := insert_some_spec h h' k v hins
  have hi : default_hash k h.items.length < h.items.length :=
    default_hash_lt _ _ hpos
  have hitems : h'.items
      = h.items.set (default_hash k h.items.length)
          (h'.items.getD (default_hash k h.items.length) none) :=
    eq_set_of_frame h.items h'.items _ none hlen hframe hi
  have hsum := sum_map_set (fun node => ((node : HashNode T).getD []).length)
    h.items (default_hash k h.items.length)
    (h'.items.getD (default_hash k h.items.length) none) none hi
  have hcount : h'.entryCount
      + (h.bucket (default_hash k h.items.length)).length
      = h.entryCount + (h'.bucket (default_hash k h.items.length)).length := by
    rw [entryCount, entryCount, hitems]
    exact hsum
  cases hg : h.get_item k with
  | some it =>
      obtain ⟨hb, _⟩ := hfoundc (by rw [hg]; rfl)
      rw [hb, length_updateFirst] at hcount
      simp [hg]
      omega
  | none =>
      obtain ⟨hb, _⟩ := habsc hg
      rw [hb, List.length_append, List.length_singleton] at hcount
      simp [hg]
      omega

end HashS2T

open HashS2T in
theorem wf_construct (T : Type) (c : Nat) : WF (construct T c) := by
  intro i hi
  have hnode : (construct T c).items.getD i none = none := by
    show (List.replicate c (none : HashNode T)).getD i none = none
    exact getD_replicate_self _ _ _
  constructor
  · intro item hmem
    rw [bucket, hnode] at hmem
    cases hmem
  · rw [bucket, hnode]
    exact List.nodup_nil

open HashS2T in
theorem wf_insert {T : Type} (h h' : HashS2T T) (k : String) (v : T)
    (hwf : WF h) (hins : h.insert k v = some h') : WF h' := by
  obtain ⟨hlen, hpos, hframe, hfoundc, habsc⟩ := insert_some_spec h h' k v hins
  intro j hj
  rw [hlen] at hj
  rw [hlen]
  by_cases hji : j = default_hash k h.items.length
  · subst hji
    cases hg : h.get_item k with
    | some it =>
        obtain ⟨hb, _⟩ := hfoundc (by rw [hg]; rfl)
        constructor
        · intro item hmem
          rw [hb] at hmem
          obtain ⟨item0, h0, hkeq⟩ := mem_updateFirst k v _ item hmem
          rw [hkeq]
          exact (hwf _ hj).1 item0 h0
        · rw [hb, map_k_updateFirst]
          exact (hwf _ hj).2
    | none =>
        obtain ⟨hb, _⟩ := habsc hg
        have hfindnone : (h.bucket (default_hash k h.items.length)).find?
            (fun it => it.k == k) = none := by
          rw [← get_item_eq_find?_bucket h k (Nat.pos_iff_ne_zero.mp hpos)]
          exact hg
        have hnotmem : ∀ it ∈ h.bucket (default_hash k h.items.length), it.k ≠ k := by
          intro it hit
          have hne := List.find?_eq_none.mp hfindnone it hit
          intro hkeq
          exact hne (by simpa using hkeq)
        constructor
        · intro item hmem
          rw [hb] at hmem
          rcases List.mem_append.mp hmem with hmem | hmem
          · exact (hwf _ hj).1 item hmem
          · have hitem : item = ⟨k, v⟩ := by simpa using hmem
            rw [hitem]
        · rw [hb, List.map_append, List.nodup_append]
          refine ⟨(hwf _ hj).2, List.nodup_singleton _, ?_⟩
          intro a ha ha2
          obtain ⟨it, hit, hitk⟩ := List.mem_map.mp ha
          have hak : a = k := by simpa using ha2
          exact hnotmem it hit (by rw [hitk, hak])
  · have hbj : h'.bucket j = h.bucket j := by
      rw [bucket, bucket, List.getD_eq_getElem?_getD, List.getD_eq_getElem?_getD,
        hframe j hji]
    rw [hbj]
    exact hwf j hj

open HashS2T in
theorem wf_insertAll {T : Type} (ps : List (String × T)) (h h' : HashS2T T)
    (hwf : WF h) (hins : h.insertAll ps = some h') : WF h' := by
  induction ps generalizing h with
  | nil =>
      rw [insertAll, Option.some_inj] at hins
      rw [← hins]
      exact hwf
  | cons p rest ih =>
      obtain ⟨k, v⟩ := p
      rw [insertAll] at hins
      cases hstep : h.insert k v with
      | none => rw [hstep] at hins; cases hins
      | some h2 =>
          rw [hstep, Option.some_bind] at hins
          exact ih h2 (wf_insert h h2 k v hwf hstep) hins

open HashS2T in
theorem wf_keyCount {T : Type} (h : HashS2T T) (hwf : WF h) (k : String)
    (hk : 1 ≤ h.keyCount k) : h.keyCount k = 1 := by
  have hlen : 0 < h.items.length := by
    by_contra hle
    have h0 : h.items = [] := List.length_eq_zero.mp (Nat.eq_zero_of_not_pos hle)
    rw [keyCount, h0] at hk
    simp at hk
  have hi : default_hash k h.items.length < h.items.length :=
    default_hash_lt _ _ hlen
  have hz : ∀ j,
      j < (h.items.map fun node =>
        ((node : HashNode T).getD []).countP fun item => item.k == k).length →
      j ≠ default_hash k h.items.length →
      (h.items.map fun node =>
        ((node : HashNode T).getD []).countP fun item => item.k == k).getD j 0 = 0 := by
    intro j hj hne
    rw [List.length_map] at hj
    have hbj : h.bucket j = (h.items.get ⟨j, hj⟩).getD [] := by
      rw [bucket, List.getD_eq_getElem?_getD, List.getElem?_eq_getElem hj]
      rfl
    rw [List.getD_eq_getElem?_getD, List.getElem?_map, List.getElem?_eq_getElem hj]
    show ((h.items.get ⟨j, hj⟩).getD []).countP (fun item => item.k == k) = 0
    apply List.countP_eq_zero.mpr
    intro it hit
    rw [← hbj] at hit
    intro hbeq
    have hkeq : it.k = k := by simpa using hbeq
    have hplace := (hwf j hj).1 it hit
    rw [hkeq] at hplace
    exact hne hplace.symm
  have hsum := sum_eq_getD_of_zeros _ (default_hash k h.items.length) hz
  have hgetD : (h.items.map fun node =>
      ((node : HashNode T).getD []).countP fun item => item.k == k).getD
        (default_hash k h.items.length) 0
      = (h.bucket (default_hash k h.items.length)).countP
          fun item => item.k == k := by
    rw [List.getD_eq_getElem?_getD, List.getElem?_map, List.getElem?_eq_getElem hi,
      bucket, List.getD_eq_getElem?_getD, List.getElem?_eq_getElem hi]
    rfl
  have hkc : h.keyCount k
      = (h.bucket (default_hash k h.items.length)).countP
          fun item => item.k == k := by
    rw [keyCount, hsum, hgetD]
  have hcnt : ((h.bucket (default_hash k h.items.length)).countP
        fun item => item.k == k)
      = ((h.bucket (default_hash k h.items.length)).map HashItem.k).count k := by
    rw [List.count_eq_countP, List.countP_map]
    rfl
  have hle : ((h.bucket (default_hash k h.items.length)).countP
      fun item => item.k == k) ≤ 1 := by
    rw [hcnt]
    exact List.nodup_iff_count_le_one.mp (hwf _ hi).2 k
  omega

open HashS2T in
theorem wf_construct_default (T : Type) : WF (HashS2T.construct_default T) := by
  rw [HashS2T.construct_default_eq]
  exact wf_construct T _

namespace HashS2T

variable {T : Type}

theorem isSome_of_bucket_ne_nil (h : HashS2T T) (i : Nat)
    (hne : h.bucket i ≠ []) : (h.items.getD i none).isSome = true := by
  cases hn : h.items.getD i none with
  | none =>
      exfalso
      apply hne
      rw [bucket, hn]
      rfl
  | some chain => rfl

/-- Exact characterization of the collision counter across one `insert`:
it is bumped by one precisely when the key is absent and the target bucket
already holds a chain. -/
theorem stat_insert (h h' : HashS2T T) (k : String) (v : T)
    (hins : h.insert k v = some h') :
    h'.stat_collisions =
      if ((h.get_item k).isNone = true
          ∧ (h.items.getD (default_hash k h.items.length) none).isSome = true)
      then h.stat_collisions + 1 else h.stat_collisions := by
  obtain ⟨hlen, hpos, hframe, hfoundc, habsc⟩ := insert_some_spec h h' k v hins
  cases hg : h.get_item k with
  | some it =>
      obtain ⟨_, hstat⟩ := hfoundc (by rw [hg]; rfl)
      rw [hstat, if_neg]
      simp
  | none =>
      obtain ⟨_, hstat⟩ := habsc hg
      rw [hstat]
      by_cases hs : (h.items.getD (default_hash k h.items.length) none).isSome = true
      · rw [if_pos hs, if_pos ⟨rfl, hs⟩]
      · rw [if_neg hs, if_neg fun hc => hs hc.2]

theorem filterMap_id_flatten {α : Type} (l : List (Option (List α))) :
    (l.filterMap id).flatten = (l.map fun o => o.getD []).flatten := by
  induction l with
  | nil => rfl
  | cons o t ih =>
      cases o with
      | none => simp [List.filterMap_cons, ih]
      | some a => simp [List.filterMap_cons, ih]

end HashS2T

/-- The hash algorithm in the spec's words: "sum the numeric code-point value
of every character in the key, then take that sum modulo capacity". -/
def spec_sum_hash (key : String) (capacity : Nat) : Nat :=
  (key.data.map Char.toNat).sum % capacity

open HashS2T

/-- C2: for every key string and positive capacity, `default_hash` equals the
spec's sum-of-code-points-mod-capacity formula, its result lies in
`[0, capacity)`, and it is order-independent: keys whose character lists are
permutations of each other hash to the same bucket index.  (Determinism is
inherent: `default_hash` is a function of its arguments.) -/
theorem C2_default_hash_spec (s t : String) (c : Nat) (hpos : 0 < c)
    (hperm : s.data.Perm t.data) :
    default_hash s c = spec_sum_hash s c ∧
    default_hash s c < c ∧
    default_hash s c = default_hash t c := by
  refine ⟨rfl, default_hash_lt s c hpos, ?_⟩
  unfold default_hash
  have hsum : (s.data.map fun ch => ch.toNat).sum
      = (t.data.map fun ch => ch.toNat).sum :=
    List.Perm.sum_eq (hperm.map _)
  rw [hsum]

theorem C2_witness :
    default_hash ("ab") 5 = spec_sum_hash ("ab") 5 ∧
    default_hash ("ab") 5 < 5 ∧
    default_hash ("ab") 5 = default_hash ("ba") 5 :=
  C2_default_hash_spec ("ab") ("ba") 5 (by decide) (by decide)

/-- C3 counterexample: the claim "insert completes successfully on every
table, including one constructed with zero buckets" is false: on a
zero-capacity table whose key is absent, `insert` reaches
`default_hash(k, 0)`, whose `% 0` panics in Rust (modelled as `none`). -/
theorem C3_counterexample : (HashS2T.construct Nat 0).insert ("a") 0 = none := by
  decide

/-- C3 (amended): insert cannot fail on any table with a positive number of
buckets — for every key and value it completes successfully. -/
theorem C3_insert_total_on_positive_capacity {T : Type} (h : HashS2T T)
    (k : String) (v : T) (hpos : 0 < h.items.length) :
    (h.insert k v).isSome = true :=
  insert_isSome_of_pos h k v hpos

theorem C3_witness : ((HashS2T.construct Nat 1).insert ("a") 7).isSome = true :=
  C3_insert_total_on_positive_capacity (HashS2T.construct Nat 1) ("a") 7 (by decide)

/-- C6: `get` on a freshly constructed table of any capacity (including zero
buckets, and including the default 256-bucket table) returns `none`; and the
zero-capacity case is handled by the guard at the top of the internal lookup
`get_item`, which returns `none` for any table whose bucket array is empty,
before the hash function is invoked. -/
theorem C6_empty_lookup {T : Type} :
    (∀ (c : Nat) (k : String), (HashS2T.construct T c).get k = none) ∧
    (∀ k : String, (HashS2T.construct_default T).get k = none) ∧
    (∀ (h : HashS2T T) (k : String), h.items.length = 0 → h.get_item k = none) := by
  refine ⟨fun c k => get_construct c k, fun k => ?_, fun h k h0 => ?_⟩
  · rw [construct_default_eq]
    exact get_construct _ k
  · rw [get_item, if_pos h0]

theorem C6_witness :
    (HashS2T.construct Nat 0).get ("x") = none ∧
    HashS2T.get_item ⟨([] : List (HashNode Nat)), 5⟩ ("x") = none :=
  ⟨(@C6_empty_lookup Nat).1 0 ("x"),
   (@C6_empty_lookup Nat).2.2 ⟨[], 5⟩ ("x") (by decide)⟩

/-- C7: distinct keys do not interfere: after inserting k1 ↦ v1 and then
k2 ↦ v2 (k1 ≠ k2) into any table, `get k1 = some v1` and `get k2 = some v2`
hold simultaneously; the statement is symmetric in the two keys, so it covers
both insertion orders. -/
theorem C7_distinct_keys_no_interference {T : Type} (h h1 h2 : HashS2T T)
    (k1 k2 : String) (v1 v2 : T) (hne : k1 ≠ k2)
    (hi1 : h.insert k1 v1 = some h1) (hi2 : h1.insert k2 v2 = some h2) :
    h2.get k1 = some v1 ∧ h2.get k2 = some v2 := by
  refine ⟨?_, get_insert_self h1 h2 k2 v2 hi2⟩
  rw [get_insert_ne h1 h2 k2 v2 k1 hne hi2]
  exact get_insert_self h h1 k1 v1 hi1

def c7Mid : HashS2T Nat := ⟨[none, some [⟨"a", 1⟩], none], 0⟩

def c7End : HashS2T Nat := ⟨[none, some [⟨"a", 1⟩, ⟨"d", 2⟩], none], 1⟩

theorem C7_witness : c7End.get ("a") = some 1 ∧ c7End.get ("d") = some 2 :=
  C7_distinct_keys_no_interference (HashS2T.construct Nat 3) c7Mid c7End
    ("a") ("d") 1 2 (by decide) (by decide) (by decide)

/-- C8: both iteration variants yield exactly the stored entries — the
concatenation, in bucket-index order, of each bucket's chain in its stored
(insertion) order; the number of items yielded equals the number of entries
stored; and the consuming and read-only variants yield the same sequence.
(Finiteness is inherent: the yield is a `List`.) -/
theorem C8_iteration_contract {T : Type} (h : HashS2T T) :
    h.intoIterList = h.iterList ∧
    h.iterList = (h.items.map fun node => (node : HashNode T).getD []).flatten ∧
    h.iterList.length = h.entryCount := by
  have h2 : h.iterList
      = (h.items.map fun node => (node : HashNode T).getD []).flatten := by
    show (h.items.filterMap id).flatten = _
    exact filterMap_id_flatten h.items
  refine ⟨rfl, h2, ?_⟩
  rw [h2, List.length_flatten, List.map_map]
  rfl

/-- C9: `get_mut` performs exactly the same lookup as `get`: the internal
`get_item_mut` agrees with `get_item` on every table and key, and `get_mut`
agrees with `get` (both designate the same entry's value).  Side-effect
freedom is inherent in the embedding: neither function produces a modified
table. -/
theorem C9_get_mut_agrees {T : Type} (h : HashS2T T) (k : String) :
    h.get_item_mut k = h.get_item k ∧ h.get_mut k = h.get k :=
  ⟨rfl, rfl⟩

/-- C1: key uniqueness and placement invariant.  For every table reachable
from construction (default or with an explicit capacity) by any sequence of
`insert` calls — `get`, `get_mut` and read-only iteration are pure in the
embedding and do not change the table — every key present in the table has
exactly one entry, and every bucket that holds an entry with that key is the
bucket the key hashes to. -/
theorem C1_key_uniqueness_invariant {T : Type} :
    (∀ (ps : List (String × T)) (h' : HashS2T T),
        (HashS2T.construct_default T).insertAll ps = some h' →
        ∀ k, 1 ≤ h'.keyCount k →
          h'.keyCount k = 1 ∧
          ∀ i, i < h'.items.length →
            (∃ item ∈ h'.bucket i, item.k = k) →
            i = default_hash k h'.items.length) ∧
    (∀ (c : Nat) (ps : List (String × T)) (h' : HashS2T T),
        (HashS2T.construct T c).insertAll ps = some h' →
        ∀ k, 1 ≤ h'.keyCount k →
          h'.keyCount k = 1 ∧
          ∀ i, i < h'.items.length →
            (∃ item ∈ h'.bucket i, item.k = k) →
            i = default_hash k h'.items.length) := by
  have main : ∀ h0 : HashS2T T, WF h0 → ∀ (ps : List (String × T)) (h' : HashS2T T),
      h0.insertAll ps = some h' → ∀ k, 1 ≤ h'.keyCount k →
        h'.keyCount k = 1 ∧
        ∀ i, i < h'.items.length → (∃ item ∈ h'.bucket i, item.k = k) →
          i = default_hash k h'.items.length := by
    intro h0 hwf0 ps h' hins k hk
    have hwf := wf_insertAll ps h0 h' hwf0 hins
    refine ⟨wf_keyCount h' hwf k hk, ?_⟩
    intro i hi hex
    obtain ⟨item, hmem, hkeq⟩ := hex
    have hplace := (hwf i hi).1 item hmem
    rw [hkeq] at hplace
    exact hplace.symm
  exact ⟨fun ps h' hins => main _ (wf_construct_default T) ps h' hins,
    fun c ps h' hins => main _ (wf_construct T c) ps h' hins⟩

def c1Table : HashS2T Nat := ⟨[none, some [⟨"a", 1⟩, ⟨"d", 2⟩], none], 1⟩

theorem C1_witness : c1Table.keyCount ("a") = 1 :=
  ((@C1_key_uniqueness_invariant Nat).2 3 [(("a"), 1), (("d"), 2)] c1Table
    (by decide) ("a") (by decide)).1

/-- C4: overwrite semantics.  If key `k` is already present and
`insert k v2` succeeds, then the collision counter, the capacity, and the
total entry count are unchanged; `get k` afterwards returns `v2`; lookups of
every other key are unchanged; every other bucket is untouched; and the
key's bucket keeps exactly the same keys in the same order (the entry keeps
its chain position — only its value changed). -/
theorem C4_overwrite_semantics {T : Type} (h h' : HashS2T T) (k : String)
    (v2 : T) (hfound : (h.get_item k).isSome = true)
    (hins : h.insert k v2 = some h') :
    h'.stat_collisions = h.stat_collisions ∧
    h'.items.length = h.items.length ∧
    h'.entryCount = h.entryCount ∧
    h'.get k = some v2 ∧
    (∀ k2, k2 ≠ k → h'.get k2 = h.get k2) ∧
    (∀ j, j ≠ default_hash k h.items.length → h'.items[j]? = h.items[j]?) ∧
    (h'.bucket (default_hash k h.items.length)).map HashItem.k
      = (h.bucket (default_hash k h.items.length)).map HashItem.k := by
  obtain ⟨hlen, hpos, hframe, hfoundc, habsc⟩ := insert_some_spec h h' k v2 hins
  obtain ⟨hb, hstat⟩ := hfoundc hfound
  refine ⟨hstat, hlen, ?_, get_insert_self h h' k v2 hins,
    fun k2 hk2 => get_insert_ne h h' k v2 k2 hk2 hins, hframe, ?_⟩
  · rw [entryCount_insert h h' k v2 hins, if_pos hfound]
  · rw [hb, map_k_updateFirst]

def c4Table : HashS2T Nat := ⟨[none, some [⟨"a", 1⟩, ⟨"d", 2⟩], none], 1⟩

def c4TableAfter : HashS2T Nat := ⟨[none, some [⟨"a", 9⟩, ⟨"d", 2⟩], none], 1⟩

theorem C4_witness :
    c4TableAfter.stat_collisions = c4Table.stat_collisions ∧
    c4TableAfter.entryCount = c4Table.entryCount ∧
    c4TableAfter.get ("a") = some 9 ∧
    c4TableAfter.get ("d") = c4Table.get ("d") ∧
    c4TableAfter.items[0]? = c4Table.items[0]? := by
  have H := C4_overwrite_semantics c4Table c4TableAfter ("a") 9
    (by decide) (by decide)
  exact ⟨H.1, H.2.2.1, H.2.2.2.1, H.2.2.2.2.1 ("d") (by decide),
    H.2.2.2.2.2.1 0 (by decide)⟩

/-- C5: collision counting.  First part: across any successful insert, the
collision counter is bumped by exactly one precisely when the key is not
already present and the target bucket already holds a chain, and is
unchanged on every other call.  Second part: inserting three pairwise
distinct keys that all hash to the same bucket into a fresh table leaves the
counter at 0, 1 and 2 after the first, second and third insert — the two
colliding inserts each count once, not by chain length. -/
theorem C5_collision_counting {T : Type} :
    (∀ (h h' : HashS2T T) (k : String) (v : T), h.insert k v = some h' →
        h'.stat_collisions =
          if ((h.get_item k).isNone = true
              ∧ (h.items.getD (default_hash k h.items.length) none).isSome = true)
          then h.stat_collisions + 1 else h.stat_collisions) ∧
    (∀ (c : Nat) (k1 k2 k3 : String) (v1 v2 v3 : T) (h1 h2 h3 : HashS2T T),
        k1 ≠ k2 → k1 ≠ k3 → k2 ≠ k3 →
        default_hash k2 c = default_hash k1 c →
        default_hash k3 c = default_hash k1 c →
        (HashS2T.construct T c).insert k1 v1 = some h1 →
        h1.insert k2 v2 = some h2 →
        h2.insert k3 v3 = some h3 →
        h1.stat_collisions = 0 ∧ h2.stat_collisions = 1 ∧
          h3.stat_collisions = 2) := by
  constructor
  · exact fun h h' k v hins => stat_insert h h' k v hins
  · intro c k1 k2 k3 v1 v2 v3 h1 h2 h3 h12 h13 h23 hh2 hh3 hi1 hi2 hi3
    have hc : (HashS2T.construct T c).items.length = c := construct_items_length c
    obtain ⟨hlen1, hpos1, hframe1, hfound1, habs1⟩ :=
      insert_some_spec _ h1 k1 v1 hi1
    obtain ⟨hlen2, hpos2, hframe2, hfound2, habs2⟩ :=
      insert_some_spec _ h2 k2 v2 hi2
    have hl1 : h1.items.length = c := by rw [hlen1, hc]
    have hl2 : h2.items.length = c := by rw [hlen2, hl1]
    have hg1 : (HashS2T.construct T c).get_item k1 = none := get_item_construct c k1
    have hnode1 : (HashS2T.construct T c).items.getD
        (default_hash k1 (HashS2T.construct T c).items.length) none = none := by
      show (List.replicate c (none : HashNode T)).getD _ none = none
      exact getD_replicate_self _ _ _
    have hs1 : h1.stat_collisions = 0 := by
      rw [stat_insert _ h1 k1 v1 hi1, if_neg]
      · rfl
      · intro hcond
        rw [hnode1] at hcond
        simp at hcond
    obtain ⟨hb1, _⟩ := habs1 hg1
    rw [hc] at hb1
    have hbc : (HashS2T.construct T c).bucket (default_hash k1 c) = [] := by
      rw [bucket]
      show ((List.replicate c (none : HashNode T)).getD _ none).getD [] = []
      rw [getD_replicate_self]
      rfl
    rw [hbc, List.nil_append] at hb1
    have hg2 : h1.get_item k2 = none := by
      rw [get_item_insert_ne (HashS2T.construct T c) h1 k1 v1 k2
        (Ne.symm h12) hi1]
      exact get_item_construct c k2
    have hcond2 : (h1.get_item k2).isNone = true
        ∧ (h1.items.getD (default_hash k2 h1.items.length) none).isSome = true := by
      refine ⟨by rw [hg2]; rfl, ?_⟩
      have hhash : default_hash k2 h1.items.length = default_hash k1 c := by
        rw [hl1, hh2]
      rw [hhash]
      exact isSome_of_bucket_ne_nil h1 _ (by rw [hb1]; simp)
    have hs2 : h2.stat_collisions = 1 := by
      rw [stat_insert h1 h2 k2 v2 hi2, if_pos hcond2, hs1]
    obtain ⟨hb2, _⟩ := habs2 hg2
    have hhash2 : default_hash k2 h1.items.length = default_hash k1 c := by
      rw [hl1, hh2]
    rw [hhash2, hb1] at hb2
    have hg3 : h2.get_item k3 = none := by
      rw [get_item_insert_ne h1 h2 k2 v2 k3 (Ne.symm h23) hi2,
        get_item_insert_ne (HashS2T.construct T c) h1 k1 v1 k3
          (Ne.symm h13) hi1]
      exact get_item_construct c k3
    have hcond3 : (h2.get_item k3).isNone = true
        ∧ (h2.items.getD (default_hash k3 h2.items.length) none).isSome = true := by
      refine ⟨by rw [hg3]; rfl, ?_⟩
      have hhash : default_hash k3 h2.items.length = default_hash k1 c := by
        rw [hl2, hh3]
      rw [hhash]
      exact isSome_of_bucket_ne_nil h2 _ (by rw [hb2]; simp)
    have hs3 : h3.stat_collisions = 2 := by
      rw [stat_insert h2 h3 k3 v3 hi3, if_pos hcond3, hs2]
    exact ⟨hs1, hs2, hs3⟩

def c5T1 : HashS2T Nat := ⟨[none, some [⟨"a", 1⟩], none], 0⟩

def c5T2 : HashS2T Nat := ⟨[none, some [⟨"a", 1⟩, ⟨"d", 2⟩], none], 1⟩

def c5T3 : HashS2T Nat := ⟨[none, some [⟨"a", 1⟩, ⟨"d", 2⟩, ⟨"g", 3⟩], none], 2⟩

theorem C5_witness :
    c5T1.stat_collisions = 0 ∧ c5T2.stat_collisions = 1 ∧
      c5T3.stat_collisions = 2 :=
  (@C5_collision_counting Nat).2 3 ("a") ("d") ("g") 1 2 3 c5T1 c5T2 c5T3
    (by decide) (by decide) (by decide) (by decide) (by decide)
    (by decide) (by decide) (by decide)

/-- C10: fresh-insert frame effect.  If key `k` is absent and `insert k v`
succeeds (which, by C3, it does exactly when the capacity is positive), the
capacity is unchanged, the entry count grows by exactly one, every bucket
other than `hash(k, capacity)` is untouched, and that bucket's chain equals
the old chain (empty if the bucket was unallocated) with the single new
entry `⟨k, v⟩` appended at the end. -/
theorem C10_fresh_insert_frame {T : Type} (h h' : HashS2T T) (k : String)
    (v : T) (habs : h.get_item k = none) (hins : h.insert k v = some h') :
    h'.items.length = h.items.length ∧
    h'.entryCount = h.entryCount + 1 ∧
    (∀ j, j ≠ default_hash k h.items.length → h'.items[j]? = h.items[j]?) ∧
    h'.bucket (default_hash k h.items.length)
      = h.bucket (default_hash k h.items.length) ++ [⟨k, v⟩] := by
  obtain ⟨hlen, hpos, hframe, hfoundc, habsc⟩ := insert_some_spec h h' k v hins
  obtain ⟨hb, _⟩ := habsc habs
  refine ⟨hlen, ?_, hframe, hb⟩
  rw [entryCount_insert h h' k v hins, if_neg (by simp [habs])]

def c10Start : HashS2T Nat := ⟨[none, some [⟨"a", 1⟩], none], 0⟩

def c10End : HashS2T Nat := ⟨[none, some [⟨"a", 1⟩, ⟨"d", 2⟩], none], 1⟩

theorem C10_witness :
    c10End.items.length = c10Start.items.length ∧
    c10End.entryCount = c10Start.entryCount + 1 ∧
    c10End.items[0]? = c10Start.items[0]? ∧
    c10End.bucket 1 = c10Start.bucket 1 ++ [⟨("d"), 2⟩] := by
  have H := C10_fresh_insert_frame c10Start c10End ("d") 2 (by decide) (by decide)
  exact ⟨H.1, H.2.1, H.2.2.1 0 (by decide), H.2.2.2⟩

end LHT
